import Mathlib

/-!
Verification of the request memoization and coalescing layer of
`src/data_processing/request_manager.py`: descriptor canonicalization
(`_get_hashable`), cache-key derivation (`Request.deterministic_hash`),
the serialization registry (`to_dict` / `request_from_dict`), the durable
store primitive (`cache_setdefault`), the execution coordinator
(`request_cache` / `request_store` wrappers) and an interleaving model of
N concurrent `compute()` callers.
-/

namespace RequestManager

/-! ## Character / string comparison

Python compares strings lexicographically by code point.  The comparison is
modelled on the code-point lists (`String.data`), which the Lean kernel can
evaluate on literals. -/

/-- Ordering of two characters by code point, as Python compares them. -/
def chCmp (a b : Char) : Ordering :=
  if a.toNat < b.toNat then .lt else if b.toNat < a.toNat then .gt else .eq

/-- Lexicographic ordering of two code-point lists, as Python compares strings. -/
def chListCmp : List Char → List Char → Ordering
  | [], [] => .eq
  | [], _ :: _ => .lt
  | _ :: _, [] => .gt
  | a :: as, b :: bs => (chCmp a b).then (chListCmp as bs)

/-- Python string comparison. -/
def strCmp (a b : String) : Ordering := chListCmp a.data b.data

/-- Python `a <= b` on strings, as the proposition used for sorting. -/
def SLe (a b : String) : Prop := strCmp a b ≠ .gt

instance : DecidableRel SLe := fun a b => by unfold SLe; infer_instance

/-- Python `sorted` on a list of strings (the sort key is the string itself). -/
def sortStr (xs : List String) : List String := List.insertionSort SLe xs

/-! ## Hashable normal forms

`_get_hashable` turns a request parameter into a hashable, JSON-serializable
value: a tree of tuples over `None`, booleans, numbers and strings.  `HVal`
is that result type. -/

/-- A hashable and JSON-serializable Python value: the result type of
`_get_hashable` (tuples over `None`, `bool`, numbers, `str`). -/
inductive HVal where
  | hnone
  | hbool (b : Bool)
  | hint (n : Int)
  | hstr (s : String)
  | htup (xs : List HVal)

/-- Ordering of two Python numbers by value. -/
def intCmp (a b : Int) : Ordering :=
  if a < b then .lt else if b < a then .gt else .eq

/-- Ordering of hashable values, modelling how Python `sorted` compares the
tuples produced by `get_hashable` (lexicographic on tuples, by value within
one primitive type; distinct primitive types are ranked arbitrarily, a case
Python would reject at runtime). -/
def hcmp : HVal → HVal → Ordering
  | .hnone, .hnone => .eq
  | .hnone, _ => .lt
  | _, .hnone => .gt
  | .hbool a, .hbool b =>
      match a, b with
      | false, false => .eq
      | false, true => .lt
      | true, false => .gt
      | true, true => .eq
  | .hbool _, _ => .lt
  | _, .hbool _ => .gt
  | .hint a, .hint b => intCmp a b
  | .hint _, _ => .lt
  | _, .hint _ => .gt
  | .hstr a, .hstr b => strCmp a b
  | .hstr _, _ => .lt
  | _, .hstr _ => .gt
  | .htup [], .htup [] => .eq
  | .htup [], .htup (_ :: _) => .lt
  | .htup (_ :: _), .htup [] => .gt
  | .htup (x :: xs), .htup (y :: ys) => (hcmp x y).then (hcmp (.htup xs) (.htup ys))

/-- Python `a <= b` on hashable values, used by `sorted` inside
`IntegrateDatasetsRequest.get_hashable`. -/
def HLe (a b : HVal) : Prop := hcmp a b ≠ .gt

instance : DecidableRel HLe := fun a b => by unfold HLe; infer_instance

/-- Python `sorted` on a list of hashable values. -/
def sortH (xs : List HVal) : List HVal := List.insertionSort HLe xs

/-- Boolean equality of hashable values (Python `==` on the tuples returned
by `get_hashable`). -/
def hvalEqb (a b : HVal) : Bool :=
  match hcmp a b with
  | .eq => true
  | _ => false

/-! ## Python parameter values

The universe of Python values that occur as request parameters: `None`,
booleans, numbers (the NaN float kept apart, since NaN == NaN is false),
`pd.NaT`, strings, lists, sets, dicts, `pd.Timestamp` and `np.datetime64`
(whose `NaT` is a distinct value). -/

/-- A Python value appearing in a request parameter. -/
inductive PyVal where
  | pynone
  | pybool (b : Bool)
  | pyint (n : Int)
  | nan
  | pynat
  | pystr (s : String)
  | pylist (xs : List PyVal)
  | pyset (xs : List String)
  | pydict (xs : List (String × PyVal))
  | pyts (t : Int)
  | pydt64 (t : Option Int)

/-- The canonical textual rendering of a timestamp: models
`str(pd.Timestamp(obj))` with the blank replaced by a T (the exact formatting
lives in pandas; only that it is a fixed function of the instant matters). -/
def tsStr (t : Int) : String := toString t

/-- The canonical textual rendering of a time delta: models
`str(pd.Timedelta(dt))` from pandas. -/
def tdStr (t : Int) : String := toString t

/-- Value stored under key `k` in an association list of hashed dict entries
(`obj[k]` in Python; the default is unreachable because the keys iterated
come from the same dict). -/
def dictGet (k : String) : List (String × HVal) → HVal
  | [] => .hnone
  | kv :: rest => if kv.1 = k then kv.2 else dictGet k rest

/-- `_get_hashable` from `request_manager.py`: a hashable and JSON
serializable version of a Python value — `list -> tuple`, `set -> 1-tuple
of the tuple of sorted elements` (the source has a trailing comma, so the
result is a singleton tuple), `dict -> tuple of (key, value) pairs with
keys sorted`, timestamps to their canonical text, null-likes (for which
`pd.isnull` holds and which no earlier branch catches) to `None`, and JSON
primitives to themselves.  The dict branch hashes the values first and then
sorts by key, which agrees with the source (sort keys, then hash each value)
because sorting by key permutes pairs without touching values.  Set elements
are strings, the only element type the surrounding requests use (Python
would sort an arbitrary set with `<`, which is undefined across types). -/
def _get_hashable : PyVal → HVal
  | .pylist xs => .htup (xs.attach.map (fun x => _get_hashable x.1))
  | .pyset xs => .htup [.htup ((sortStr xs).map HVal.hstr)]
  | .pydict xs =>
      let hxs := xs.attach.map (fun kv => (kv.1.1, _get_hashable kv.1.2))
      .htup ((sortStr (hxs.map Prod.fst)).map (fun k => .htup [.hstr k, dictGet k hxs]))
  | .pyts t => .hstr (tsStr t)
  | .pydt64 (some t) => .hstr (tsStr t)
  | .pydt64 Option.none => .hstr "NaT"
  | .pynone => .hnone
  | .nan => .hnone
  | .pynat => .hnone
  | .pybool b => .hbool b
  | .pyint n => .hint n
  | .pystr s => .hstr s
decreasing_by
  · have := List.sizeOf_lt_of_mem x.2
    simp_all
    omega
  · have := List.sizeOf_lt_of_mem kv.2
    rcases kv with ⟨⟨k, v⟩, hkv⟩
    simp_all
    omega

/-- The null-like parameter values — `None`, the NaN float, `pd.NaT` —
exactly those on which `pd.isnull` holds and which no earlier branch of
`_get_hashable` intercepts. -/
def NullLike (v : PyVal) : Prop := v = .pynone ∨ v = .nan ∨ v = .pynat

/-! ## The request hierarchy -/

/-- The request node hierarchy of `request_manager.py`:
`GetICOSDatasetTitleRequest`, `ReadDataRequest`, `IntegrateDatasetsRequest`,
`FilterDataRequest` (whose time-coincidence tolerance is an optional
`pd.Timedelta`, modelled by its tick count), `MergeDatasetsRequest`. -/
inductive Request where
  | getICOSTitle (dobj : PyVal)
  | readData (ri url : PyVal) (ds_metadata : List (String × PyVal)) (selector : PyVal)
  | integrate (children : List Request)
  | filterData (child : Request) (rng_by_varlabel : List (String × PyVal))
      (cross_filtering : Bool) (cross_filtering_time_coincidence_dt : Option Int)
  | mergeData (child : Request)

/-- `get_hashable` of each request variant, as defined by the respective
classes: a tuple headed by the action tag.  `IntegrateDatasetsRequest`
sorts the hashables of its children; `FilterDataRequest` first renders its
tolerance as `str(pd.Timedelta(dt))` (or keeps `None`). -/
def Request.get_hashable : Request → HVal
  | .getICOSTitle dobj => .htup [.hstr "get_ICOS_dataset_title", _get_hashable dobj]
  | .readData ri url md sel =>
      .htup [.hstr "read_dataset", _get_hashable ri, _get_hashable url,
             _get_hashable (.pydict md), _get_hashable sel]
  | .integrate cs =>
      .htup (.hstr "integrate_datasets" :: sortH (cs.attach.map (fun c => get_hashable c.1)))
  | .filterData c rng cross tol =>
      .htup [.hstr "filter_data", c.get_hashable, _get_hashable (.pydict rng),
             _get_hashable (.pybool cross),
             _get_hashable (match tol with
                            | some d => .pystr (tdStr d)
                            | Option.none => .pynone)]
  | .mergeData c => .htup [.hstr "merge_datasets", c.get_hashable]
decreasing_by
  all_goals try (have hsz := List.sizeOf_lt_of_mem c.2)
  all_goals simp_all
  all_goals omega

/-- `Request.__eq__`: two requests are equal iff their hashables are. -/
def reqEq (r1 r2 : Request) : Bool := hvalEqb r1.get_hashable r2.get_hashable

/-- The textual serialization `str(self.get_hashable())` that
`deterministic_hash` feeds to SHA-256; a Python `repr`-like printer
(strings quoted, tuples parenthesized, a trailing comma on 1-tuples). -/
def hvalStr : HVal → String
  | .hnone => "None"
  | .hbool true => "True"
  | .hbool false => "False"
  | .hint n => toString n
  | .hstr s => "\x27" ++ s ++ "\x27"
  | .htup xs =>
      "(" ++ String.intercalate ", " (xs.attach.map (fun x => hvalStr x.1))
          ++ (if xs.length = 1 then ",)" else ")")
decreasing_by
  have := List.sizeOf_lt_of_mem x.2
  simp_all
  omega

/-- `Request.deterministic_hash`: the SHA-256 hex digest of the canonical
serialization of the hashable.  SHA-256 itself is the external `hashlib`
collaborator, abstracted as the function argument `sha`. -/
def deterministic_hash (sha : String → String) (r : Request) : String :=
  sha (hvalStr r.get_hashable)

/-- The cache key as the number the collision loop does arithmetic on:
`int(Request.deterministic_hash(), 16)`.  `hnum` abstracts the SHA-256
digest read as a number; it factors through the serialization of the hashable
exactly as the digest in the source does. -/
def numeric_hash (hnum : String → Nat) (r : Request) : Nat :=
  hnum (hvalStr r.get_hashable)

/-! ## Serialization: `to_dict` and the `_action` registry -/

/-- Python exceptions raised by the deserialization layer. -/
inductive PyErr where
  | valueError
  | typeError
  | notImplementedError

/-- `to_dict` of each request variant: a dict `{"_action": tag, ...fields}`;
composite variants nest the dicts of their children (`IntegrateDatasetsRequest`
emits a tuple of child dicts, modelled as a list). -/
def Request.to_dict : Request → PyVal
  | .getICOSTitle dobj =>
      .pydict [("_action", .pystr "get_ICOS_dataset_title"), ("dobj", dobj)]
  | .readData ri url md sel =>
      .pydict [("_action", .pystr "read_dataset"), ("ri", ri), ("url", url),
               ("ds_metadata", .pydict md), ("selector", sel)]
  | .integrate cs =>
      .pydict [("_action", .pystr "integrate_datasets"),
               ("read_dataset_requests", .pylist (cs.attach.map (fun c => to_dict c.1)))]
  | .filterData c rng cross tol =>
      .pydict [("_action", .pystr "filter_data"),
               ("integrate_datasets_request", c.to_dict),
               ("rng_by_varlabel", .pydict rng),
               ("cross_filtering", .pybool cross),
               ("cross_filtering_time_coincidence_as_str",
                match tol with
                | some d => .pystr (tdStr d)
                | Option.none => .pynone)]
  | .mergeData c =>
      .pydict [("_action", .pystr "merge_datasets"), ("filter_dataset_request", c.to_dict)]
decreasing_by
  all_goals try (have hsz := List.sizeOf_lt_of_mem c.2)
  all_goals simp_all
  all_goals omega

/-- Python `d[key]` on a dict value (`none` models the `KeyError` case). -/
def pdictGet (k : String) : List (String × PyVal) → Option PyVal
  | [] => Option.none
  | kv :: rest => if kv.1 = k then some kv.2 else pdictGet k rest

/-- `request_from_dict`: dispatch on the `_action` tag to the `from_dict`
of the variant (inlined here as the classmethods in the source are): a
non-dict or missing `_action` raises `ValueError`; a missing required field
`ValueError` when a required field is missing; an unknown tag raises
`NotImplementedError`.  The `filter_data` branch reproduces the source
verbatim: it calls `FilterDataRequest.from_json(d)`, and `from_json` starts
with `json.loads(d)`, which rejects the already-parsed dict `d` with a
`TypeError` before any parsing can happen. -/
def request_from_dict : PyVal → Except PyErr Request
  | .pydict kvs =>
      match pdictGet "_action" kvs with
      | Option.none => .error .valueError
      | some act =>
          match act with
          | .pystr a =>
              if a = "get_ICOS_dataset_title" then
                match pdictGet "dobj" kvs with
                | some dobj => .ok (.getICOSTitle dobj)
                | Option.none => .error .valueError
              else if a = "read_dataset" then
                match pdictGet "ri" kvs, pdictGet "url" kvs,
                      pdictGet "ds_metadata" kvs, pdictGet "selector" kvs with
                | some ri, some url, some mdv, some sel =>
                    (match mdv with
                     | .pydict md => .ok (.readData ri url md sel)
                     | _ => .error .typeError)
                | _, _, _, _ => .error .valueError
              else if a = "merge_datasets" then
                match hsub : pdictGet "filter_dataset_request" kvs with
                | some sub => (request_from_dict sub).map .mergeData
                | Option.none => .error .valueError
              else if a = "integrate_datasets" then
                match hlst : pdictGet "read_dataset_requests" kvs with
                | some (.pylist xs) =>
                    (xs.attach.mapM (fun x => request_from_dict x.1)).map .integrate
                | some _ => .error .typeError
                | Option.none => .error .valueError
              else if a = "filter_data" then
                .error .typeError
              else .error .notImplementedError
          | _ => .error .notImplementedError
  | _ => .error .valueError
decreasing_by
  all_goals
    (have hb : ∀ (k : String) (l : List (String × PyVal)) (w : PyVal),
        pdictGet k l = some w → sizeOf w ≤ sizeOf l := by
      intro k l
      induction l with
      | nil => intro w hw; simp [pdictGet] at hw
      | cons kv rest ih =>
        intro w hw
        rcases kv with ⟨k1, v1⟩
        rw [pdictGet] at hw
        by_cases hk : k1 = k
        · simp only [hk, if_true] at hw
          simp at hw
          subst hw
          simp
          omega
        · simp [hk] at hw
          have := ih w hw
          simp
          omega)
  · have h1 := hb _ _ _ hsub
    simp
    omega
  · have h1 := hb _ _ _ hlst
    have h2 := List.sizeOf_lt_of_mem x.2
    simp at h1 h2 ⊢
    omega

/-- `Request.from_json` / `request_from_json`: parse a JSON string and
deserialize.  `jloads` abstracts `json.loads`, which accepts only strings
(any other argument raises `TypeError`). -/
def request_from_json (jloads : String → Except PyErr PyVal) (js : PyVal) :
    Except PyErr Request :=
  match js with
  | .pystr s => jloads s >>= request_from_dict
  | _ => .error .typeError

/-! ## The durable store and `cache_setdefault` -/

/-- Expiry constants of `request_manager.py` (seconds). -/
def _RESULT_EXPIRE : Nat := 3600 * 12

/-- Safety TTL of a `Pending` (in-progress) entry. -/
def _IN_PROGRESS_EXPIRE : Nat := 30

/-- TTL of a recorded failure. -/
def _FAIL_EXPIRE : Nat := 30

/-- The state stored for a request in the cache map: `_ResultInProgress`,
`_FailResult(exc)`, or an actual result. -/
inductive CRes (E V : Type) where
  | inProgress
  | fail (e : E)
  | ok (v : V)

/-- One cache entry `(request, state)` plus its TTL (`Option.none` models
`expire=None`, i.e. no expiry). -/
structure StoreEntry (E V : Type) where
  req : Request
  res : CRes E V
  expire : Option Nat

/-- The durable key→entry map (`_cache_map`), as an association list whose
newest binding for a key shadows older ones; all semantics go through
`store_get`. -/
def Store (E V : Type) := List (Nat × StoreEntry E V)

/-- Read the entry at a key. -/
def store_get (i : Nat) : Store E V → Option (StoreEntry E V)
  | [] => Option.none
  | (j, e) :: s => if j = i then some e else store_get i s

/-- `_cache_map.set(i, entry, expire)`: overwrite the entry at key `i`. -/
def store_set (i : Nat) (e : StoreEntry E V) (s : Store E V) : Store E V :=
  (i, e) :: s

/-- Result of `cache_setdefault`: the (possibly grown) store, the effective
key, the state found there (`Option.none` models the fresh `_NoResultYet`
marker), and the number of collision warnings logged. -/
structure SDOut (E V : Type) where
  store : Store E V
  key : Nat
  res : Option (CRes E V)
  warns : Nat

/-- `cache_setdefault(req)`, run at candidate key `i` (the source starts at
`int(req.deterministic_hash(), 16)` and the whole loop is inside one store
transaction): if no entry exists at `i`, insert `(req, _ResultInProgress)`
with the short safety TTL and return `_NoResultYet`; if the stored request
equals `req`, return the stored state unchanged; otherwise log a collision
warning and retry at `i + 1` (the source bumps `hex(int(i, 16) + 1)`). -/
def cache_setdefault (req : Request) (i : Nat) (s : Store E V) : SDOut E V :=
  match hcase : store_get i s with
  | Option.none =>
      ⟨store_set i ⟨req, .inProgress, some _IN_PROGRESS_EXPIRE⟩ s, i, Option.none, 0⟩
  | some entry =>
      if reqEq entry.req req then ⟨s, i, some entry.res, 0⟩
      else
        let o := cache_setdefault req (i + 1) s
        ⟨o.store, o.key, o.res, o.warns + 1⟩
termination_by s.countP (fun p => i ≤ p.1)
decreasing_by
  have hb : ∀ (t : Store E V) (j : Nat) (e : StoreEntry E V), store_get j t = some e →
      t.countP (fun p => j + 1 ≤ p.1) < t.countP (fun p => j ≤ p.1) := by
    intro t j
    induction t with
    | nil => intro e he; simp [store_get] at he
    | cons hd tl ih =>
      intro e he
      rcases hd with ⟨jk, ek⟩
      rw [store_get] at he
      rw [List.countP_cons, List.countP_cons]
      by_cases hk : jk = j
      · have h1 : tl.countP (fun p => j + 1 ≤ p.1) ≤ tl.countP (fun p => j ≤ p.1) :=
          List.countP_mono_left (fun a _ ha => by
            simp only [decide_eq_true_eq] at ha ⊢
            omega)
        subst hk
        simp
        omega
      · simp [hk] at he
        have := ih e he
        have h2 : (if (decide (j + 1 ≤ jk)) = true then 1 else 0) ≤
            (if (decide (j ≤ jk)) = true then 1 else 0) := by
          by_cases h3 : j + 1 ≤ jk
          · have h4 : j ≤ jk := by omega
            simp [h3, h4]
          · simp [h3]
        simp only [decide_eq_true_eq] at h2 ⊢
        omega
  exact hb s i entry hcase

/-! ## The execution coordinator: `request_cache` and `request_store` -/

/-- Result of one `compute()` call through the `request_cache` wrapper: the
final store, the outcome (`Option.none` only when the polling fuel ran out
while the entry of another caller stayed in progress), and how many times the
wrapped computation actually executed. -/
structure RCOut (E V : Type) where
  store : Store E V
  out : Option (Except E V)
  execs : Nat

/-- The loop of the `request_cache` wrapper, with `fuel` bounding the number of
passes (each `_ResultInProgress` pass sleeps 0.5 s and retries).  `body`
is the outcome of the wrapped computation (`self.execute()`), `dh` the numeric
cache key, `custom_expire` the decorator argument (`Option.none` models the
`-1` sentinel, i.e. use `_RESULT_EXPIRE`).  On a fresh claim the entry is
overwritten — in the `finally` block of the source — with the result and its TTL
on success, or with `_FailResult` and `_FAIL_EXPIRE` on an exception, which
is re-raised; a stored `_FailResult` is re-raised without executing; a
stored result is returned as-is. -/
def request_cache_run (custom_expire : Option (Option Nat)) (req : Request)
    (body : Except E V) (dh : Nat) : Nat → Store E V → RCOut E V
  | 0, s => ⟨s, Option.none, 0⟩
  | fuel + 1, s =>
      let o := cache_setdefault req dh s
      match o.res with
      | Option.none =>
          match body with
          | .ok v =>
              let expire := match custom_expire with
                            | Option.none => some _RESULT_EXPIRE
                            | some e => e
              ⟨store_set o.key ⟨req, .ok v, expire⟩ o.store, some (.ok v), 1⟩
          | .error e =>
              ⟨store_set o.key ⟨req, .fail e, some _FAIL_EXPIRE⟩ o.store, some (.error e), 1⟩
      | some .inProgress =>
          let r := request_cache_run custom_expire req body dh fuel o.store
          ⟨r.store, r.out, r.execs⟩
      | some (.fail e) => ⟨o.store, some (.error e), 0⟩
      | some (.ok v) => ⟨o.store, some (.ok v), 0⟩

/-- The `request_cache` decorator applied to the `compute` of a request, keyed by
`numeric_hash`. -/
def request_cache (hnum : String → Nat) (custom_expire : Option (Option Nat))
    (req : Request) (body : Except E V) (fuel : Nat) (s : Store E V) : RCOut E V :=
  request_cache_run custom_expire req body (numeric_hash hnum req) fuel s

/-- `append_request_to_deque`: appends the request (with its metadata) to the
audit deque, but only inside a flask request context. -/
def append_request_to_deque (has_request_context : Bool) (req : Request)
    (deque : List Request) : List Request :=
  if has_request_context then deque ++ [req] else deque

/-- The `request_store` wrapper: run the wrapped compute; if it returned a
result and `store_request` is set, try to append the request to the audit
deque — a failure of that append (`append_ok = false`) is caught and logged,
leaving the deque unchanged; the result of the compute is returned either way.
If the compute raised, the exception propagates and the append never runs. -/
def request_store (store_request : Bool) (has_request_context append_ok : Bool)
    (req : Request) (inner : RCOut E V) (deque : List Request) :
    RCOut E V × List Request :=
  match inner.out with
  | some (.ok _) =>
      if store_request then
        if append_ok then (inner, append_request_to_deque has_request_context req deque)
        else (inner, deque)
      else (inner, deque)
  | _ => (inner, deque)

/-- `ReadDataRequest.compute`: `request_store(store_request=True)` wrapped
around `request_cache()` wrapped around `execute` (which calls the external
`data_access.read_dataset`, abstracted as `body`). -/
def ReadDataRequest_compute (hnum : String → Nat) (has_request_context append_ok : Bool)
    (req : Request) (body : Except E V) (fuel : Nat) (s : Store E V)
    (deque : List Request) : RCOut E V × List Request :=
  request_store true has_request_context append_ok req
    (request_cache hnum Option.none req body fuel s) deque

/-! ## Interleaving model of N concurrent `compute()` callers

Concurrency arises from the hosting environment invoking `compute()` from
several workers on structurally identical trees; every caller runs the same
`request_cache` loop against the shared store.  The atomicity units are
exactly those of the source: one whole `cache_setdefault` transaction, the
execution of the body, and the final `_cache_map.set` publish.  Entry
expiry is not modelled (all steps happen within the TTLs). -/

/-- Local state of one caller running the `request_cache` loop. -/
inductive CallerSt (E V : Type) where
  | start
  | claimed (i : Nat)
  | publishing (i : Nat)
  | finished (r : V)
  | aborted (e : E)

/-- Global state: the shared store, the state of each caller, and the number of
times the wrapped body (the external fetch of the leaf) has executed. -/
structure Sys (E V : Type) (n : Nat) where
  store : Store E V
  cs : Fin n → CallerSt E V
  execs : Nat

/-- One atomic step of one caller.  `claim`/`wait`/`readFinished`/`readFailed`
are the four outcomes of the `cache_setdefault` transaction of a caller; `exec`
is the claimer running the body (deterministically producing `v`); `publish`
is the final `_cache_map.set` of the claimer. -/
inductive Step (hnum : String → Nat) (req : Request) (v : V) {n : Nat} :
    Sys E V n → Sys E V n → Prop where
  | claim (σ : Sys E V n) (c : Fin n)
      (hc : σ.cs c = .start)
      (hres : (cache_setdefault req (numeric_hash hnum req) σ.store).res
                = (Option.none : Option (CRes E V))) :
      Step hnum req v σ
        ⟨(cache_setdefault req (numeric_hash hnum req) σ.store).store,
         Function.update σ.cs c
           (.claimed (cache_setdefault req (numeric_hash hnum req) σ.store).key),
         σ.execs⟩
  | wait (σ : Sys E V n) (c : Fin n)
      (hc : σ.cs c = .start)
      (hres : (cache_setdefault req (numeric_hash hnum req) σ.store).res
                = some (.inProgress : CRes E V)) :
      Step hnum req v σ
        ⟨(cache_setdefault req (numeric_hash hnum req) σ.store).store, σ.cs, σ.execs⟩
  | readFinished (σ : Sys E V n) (c : Fin n) (r : V)
      (hc : σ.cs c = .start)
      (hres : (cache_setdefault req (numeric_hash hnum req) σ.store).res
                = some (.ok r)) :
      Step hnum req v σ
        ⟨(cache_setdefault req (numeric_hash hnum req) σ.store).store,
         Function.update σ.cs c (.finished r), σ.execs⟩
  | readFailed (σ : Sys E V n) (c : Fin n) (e : E)
      (hc : σ.cs c = .start)
      (hres : (cache_setdefault req (numeric_hash hnum req) σ.store).res
                = some (.fail e)) :
      Step hnum req v σ
        ⟨(cache_setdefault req (numeric_hash hnum req) σ.store).store,
         Function.update σ.cs c (.aborted e), σ.execs⟩
  | exec (σ : Sys E V n) (c : Fin n) (i : Nat)
      (hc : σ.cs c = .claimed i) :
      Step hnum req v σ ⟨σ.store, Function.update σ.cs c (.publishing i), σ.execs + 1⟩
  | publish (σ : Sys E V n) (c : Fin n) (i : Nat)
      (hc : σ.cs c = .publishing i) :
      Step hnum req v σ
        ⟨store_set i ⟨req, .ok v, some _RESULT_EXPIRE⟩ σ.store,
         Function.update σ.cs c (.finished v), σ.execs⟩

/-- The initial state: empty store, every caller about to enter the loop. -/
def InitSys (E V : Type) (n : Nat) : Sys E V n :=
  ⟨[], fun _ => .start, 0⟩

/-- States reachable from the initial state by interleaved caller steps. -/
def Reachable (hnum : String → Nat) (req : Request) (v : V) {n : Nat}
    (σ : Sys E V n) : Prop :=
  Relation.ReflTransGen (Step hnum req v) (InitSys E V n) σ

/-- The single-flight protocol invariant: at any time the run is in one of
four phases — nobody has claimed yet (empty store); one caller holds the
`Pending` claim and has not executed; one caller has executed (exactly one
execution so far) and is about to publish; or the result is published and
every caller is either still looping or finished with the published value. -/
def SFInv (hnum : String → Nat) (req : Request) (v : V) {n : Nat}
    (σ : Sys E V n) : Prop :=
  (σ.execs = 0 ∧ (∀ j, store_get j σ.store = Option.none) ∧
     ∀ c, σ.cs c = .start) ∨
  (σ.execs = 0 ∧
    (∀ j, store_get j σ.store = if j = numeric_hash hnum req
        then some ⟨req, .inProgress, some _IN_PROGRESS_EXPIRE⟩ else Option.none) ∧
    ∃ c0, σ.cs c0 = .claimed (numeric_hash hnum req) ∧
      ∀ c, c ≠ c0 → σ.cs c = .start) ∨
  (σ.execs = 1 ∧
    (∀ j, store_get j σ.store = if j = numeric_hash hnum req
        then some ⟨req, .inProgress, some _IN_PROGRESS_EXPIRE⟩ else Option.none) ∧
    ∃ c0, σ.cs c0 = .publishing (numeric_hash hnum req) ∧
      ∀ c, c ≠ c0 → σ.cs c = .start) ∨
  (σ.execs = 1 ∧
    (∀ j, store_get j σ.store = if j = numeric_hash hnum req
        then some ⟨req, .ok v, some _RESULT_EXPIRE⟩ else Option.none) ∧
    ∀ c, σ.cs c = .start ∨ σ.cs c = .finished v)

/-! # Theorems -/

theorem then_swap (o1 o2 : Ordering) : (o1.then o2).swap = (o1.swap).then (o2.swap) := by
  cases o1 <;> rfl

theorem then_eq_eq {o1 o2 : Ordering} : o1.then o2 = .eq ↔ o1 = .eq ∧ o2 = .eq := by
  cases o1 <;> simp [Ordering.then]

theorem then_eq_lt {o1 o2 : Ordering} : o1.then o2 = .lt ↔ o1 = .lt ∨ (o1 = .eq ∧ o2 = .lt) := by
  cases o1 <;> simp [Ordering.then]

theorem chCmp_swap (a b : Char) : (chCmp a b).swap = chCmp b a := by
  unfold chCmp
  by_cases h1 : a.toNat < b.toNat
  · have h2 : ¬ b.toNat < a.toNat := by omega
    simp [h1, h2, Ordering.swap]
  · by_cases h2 : b.toNat < a.toNat
    · simp [h1, h2, Ordering.swap]
    · simp [h1, h2, Ordering.swap]

theorem chCmp_eq_iff {a b : Char} : chCmp a b = .eq ↔ a = b := by
  unfold chCmp
  constructor
  · intro h
    by_cases h1 : a.toNat < b.toNat
    · simp [h1] at h
    · by_cases h2 : b.toNat < a.toNat
      · simp [h1, h2] at h
      · have h3 : a.toNat = b.toNat := by omega
        exact Char.eq_of_val_eq (UInt32.ext h3)
  · rintro rfl
    simp

theorem chCmp_lt_iff {a b : Char} : chCmp a b = .lt ↔ a.toNat < b.toNat := by
  unfold chCmp
  by_cases h1 : a.toNat < b.toNat
  · simp [h1]
  · by_cases h2 : b.toNat < a.toNat <;> simp [h1, h2]

theorem chListCmp_swap : ∀ as bs, (chListCmp as bs).swap = chListCmp bs as := by
  intro as
  induction as with
  | nil => intro bs; cases bs <;> rfl
  | cons a as ih =>
    intro bs
    cases bs with
    | nil => rfl
    | cons b bs =>
      rw [chListCmp, chListCmp, then_swap, chCmp_swap, ih]

theorem chListCmp_eq_iff : ∀ as bs, chListCmp as bs = .eq ↔ as = bs := by
  intro as
  induction as with
  | nil => intro bs; cases bs <;> simp [chListCmp]
  | cons a as ih =>
    intro bs
    cases bs with
    | nil => simp [chListCmp]
    | cons b bs =>
      rw [chListCmp, then_eq_eq, chCmp_eq_iff, ih]
      simp

theorem chListCmp_lt_trans :
    ∀ as bs cs, chListCmp as bs = .lt → chListCmp bs cs = .lt → chListCmp as cs = .lt := by
  intro as
  induction as with
  | nil =>
    intro bs cs h1 h2
    cases bs with
    | nil => exact h2
    | cons b bs =>
      cases cs with
      | nil => simp [chListCmp] at h2
      | cons c cs => simp [chListCmp]
  | cons a as ih =>
    intro bs cs h1 h2
    cases bs with
    | nil => simp [chListCmp] at h1
    | cons b bs =>
      cases cs with
      | nil => simp [chListCmp] at h2
      | cons c cs =>
        rw [chListCmp, then_eq_lt] at h1 h2 ⊢
        rcases h1 with h1 | ⟨h1e, h1r⟩
        · rcases h2 with h2 | ⟨h2e, h2r⟩
          · left
            rw [chCmp_lt_iff] at h1 h2 ⊢
            omega
          · rw [chCmp_eq_iff] at h2e
            subst h2e
            exact Or.inl h1
        · rw [chCmp_eq_iff] at h1e
          subst h1e
          rcases h2 with h2 | ⟨h2e, h2r⟩
          · exact Or.inl h2
          · rw [chCmp_eq_iff] at h2e
            subst h2e
            exact Or.inr ⟨chCmp_eq_iff.mpr rfl, ih _ _ h1r h2r⟩

theorem strCmp_swap (a b : String) : (strCmp a b).swap = strCmp b a :=
  chListCmp_swap a.data b.data

theorem strCmp_eq_iff {a b : String} : strCmp a b = .eq ↔ a = b := by
  unfold strCmp
  rw [chListCmp_eq_iff]
  constructor
  · intro h
    cases a
    cases b
    simp_all
  · rintro rfl
    rfl

theorem ordering_cases (o : Ordering) : o = .lt ∨ o = .eq ∨ o = .gt := by
  cases o <;> simp

theorem SLe_total (a b : String) : SLe a b ∨ SLe b a := by
  unfold SLe
  by_cases h : strCmp a b = .gt
  · right
    rw [← strCmp_swap a b, h]
    simp [Ordering.swap]
  · exact Or.inl h

theorem SLe_trans (a b c : String) (h1 : SLe a b) (h2 : SLe b c) : SLe a c := by
  unfold SLe strCmp at h1 h2 ⊢
  rcases ordering_cases (chListCmp a.data b.data) with ha | ha | ha
  · rcases ordering_cases (chListCmp b.data c.data) with hb | hb | hb
    · rw [chListCmp_lt_trans _ _ _ ha hb]
      simp
    · rw [chListCmp_eq_iff] at hb
      rw [hb] at ha
      rw [ha]
      simp
    · exact absurd hb h2
  · rw [chListCmp_eq_iff] at ha
    rw [← ha] at h2
    exact h2
  · exact absurd ha h1

theorem SLe_antisymm (a b : String) (h1 : SLe a b) (h2 : SLe b a) : a = b := by
  unfold SLe at h1 h2
  rw [← strCmp_swap a b] at h2
  rcases ordering_cases (strCmp a b) with h | h | h
  · rw [h] at h2
    simp [Ordering.swap] at h2
  · exact strCmp_eq_iff.mp h
  · exact absurd h h1

theorem sortStr_perm_of_perm {xs ys : List String} (h : xs.Perm ys) :
    sortStr xs = sortStr ys := by
  unfold sortStr
  have i3 : IsAntisymm String SLe := ⟨SLe_antisymm⟩
  have i1 : IsTotal String SLe := ⟨SLe_total⟩
  have i2 : IsTrans String SLe := ⟨SLe_trans⟩
  exact @List.eq_of_perm_of_sorted _ _ i3 _ _
    (((List.perm_insertionSort _ xs).trans h).trans (List.perm_insertionSort _ ys).symm)
    (@List.sorted_insertionSort _ _ _ i1 i2 xs)
    (@List.sorted_insertionSort _ _ _ i1 i2 ys)

theorem intCmp_swap (a b : Int) : (intCmp a b).swap = intCmp b a := by
  unfold intCmp
  by_cases h1 : a < b
  · have h2 : ¬ b < a := by omega
    simp [h1, h2, Ordering.swap]
  · by_cases h2 : b < a
    · simp [h1, h2, Ordering.swap]
    · simp [h1, h2, Ordering.swap]

theorem intCmp_eq_iff {a b : Int} : intCmp a b = .eq ↔ a = b := by
  unfold intCmp
  by_cases h1 : a < b
  · simp [h1]
    omega
  · by_cases h2 : b < a
    · simp [h1, h2]
      omega
    · simp [h1, h2]
      omega

theorem hcmp_swap : ∀ a b : HVal, (hcmp a b).swap = hcmp b a := by
  intro a b
  induction a, b using hcmp.induct <;>
    first
    | (rfl
       done)
    | (simp only [hcmp]
       rfl
       done)
    | (simp only [hcmp]
       exact strCmp_swap _ _)
    | (simp only [hcmp]
       exact intCmp_swap _ _)
    | (rename_i ih1 ih2
       simp only [hcmp]
       rw [then_swap, ih1, ih2]
       done)
    | (rename_i x hx
       cases x <;> simp_all [hcmp, Ordering.swap]
       done)
    | (rename_i x hx1 hx2
       cases x <;> simp_all [hcmp, Ordering.swap]
       done)
    | (rename_i x hx1 hx2 hx3
       cases x <;> simp_all [hcmp, Ordering.swap]
       done)
    | (rename_i x hx1 hx2 hx3 hx4
       cases x <;> simp_all [hcmp, Ordering.swap]
       done)

theorem hcmp_eq_iff : ∀ a b : HVal, hcmp a b = .eq ↔ a = b := by
  intro a b
  induction a, b using hcmp.induct <;>
    first
    | (simp [hcmp]
       done)
    | (rename_i ih1 ih2
       simp only [hcmp]
       rw [then_eq_eq, ih1, ih2]
       simp
       done)
    | (simp only [hcmp]
       rw [strCmp_eq_iff]
       simp
       done)
    | (simp only [hcmp]
       rw [intCmp_eq_iff]
       simp
       done)
    | (rename HVal => x
       cases x <;> simp_all [hcmp]
       done)

theorem hvalEqb_iff {a b : HVal} : hvalEqb a b = true ↔ a = b := by
  have h1 : hvalEqb a b = true ↔ hcmp a b = .eq := by
    unfold hvalEqb
    cases hcmp a b <;> simp
  rw [h1, hcmp_eq_iff]

theorem reqEq_iff {r1 r2 : Request} :
    reqEq r1 r2 = true ↔ r1.get_hashable = r2.get_hashable := by
  unfold reqEq
  exact hvalEqb_iff

theorem reqEq_refl (r : Request) : reqEq r r = true := reqEq_iff.mpr rfl

theorem sortH_pair (a b : HVal) : sortH [a, b] = sortH [b, a] := by
  unfold sortH
  rcases h : hcmp a b with _ | _ | _
  · have hab : HLe a b := by simp [HLe, h]
    have hba : ¬ HLe b a := by
      have := hcmp_swap a b
      rw [h] at this
      simp [HLe, ← this, Ordering.swap]
    simp [List.insertionSort, List.orderedInsert, hab, hba]
  · have : a = b := (hcmp_eq_iff a b).mp h
    rw [this]
  · have hba : HLe b a := by
      have := hcmp_swap a b
      rw [h] at this
      simp [HLe, ← this, Ordering.swap]
    have hab : ¬ HLe a b := by simp [HLe, h]
    simp [List.insertionSort, List.orderedInsert, hab, hba]

theorem _get_hashable_pylist (xs : List PyVal) :
    _get_hashable (.pylist xs) = .htup (xs.map _get_hashable) := by
  rw [_get_hashable]
  simp

theorem _get_hashable_pyset (xs : List String) :
    _get_hashable (.pyset xs) = .htup [.htup ((sortStr xs).map HVal.hstr)] := by
  rw [_get_hashable]

theorem attach_map_pair {A B C : Type} (xs : List (A × B)) (f : B → C) :
    (List.map (fun kv : {x // x ∈ xs} => ((↑kv : A × B).1, f (↑kv : A × B).2)) xs.attach)
      = xs.map (fun kv => (kv.1, f kv.2)) := by
  have h1 : (fun kv : {x // x ∈ xs} => ((↑kv : A × B).1, f (↑kv : A × B).2))
      = (fun kv : A × B => (kv.1, f kv.2)) ∘ (fun kv : {x // x ∈ xs} => (↑kv : A × B)) :=
    rfl
  have h2 : (fun kv : {x // x ∈ xs} => (↑kv : A × B)) = Subtype.val := rfl
  rw [h1, ← List.map_map, h2, List.attach_map_subtype_val]

theorem _get_hashable_pydict (xs : List (String × PyVal)) :
    _get_hashable (.pydict xs) =
      .htup ((sortStr ((xs.map (fun kv => (kv.1, _get_hashable kv.2))).map Prod.fst)).map
        (fun k => .htup [.hstr k,
          dictGet k (xs.map (fun kv => (kv.1, _get_hashable kv.2)))])) := by
  simp only [_get_hashable]
  rw [attach_map_pair xs _get_hashable]

theorem dictGet_perm : ∀ {xs ys : List (String × HVal)}, xs.Perm ys →
    (xs.map Prod.fst).Nodup → ∀ k, dictGet k xs = dictGet k ys := by
  intro xs ys h
  induction h with
  | nil =>
    intro _ k
    rfl
  | cons kv hp ih =>
    intro nd k
    rw [dictGet, dictGet]
    by_cases hk : kv.1 = k
    · simp [hk]
    · rw [if_neg hk, if_neg hk]
      refine ih ?_ k
      simp [List.nodup_cons] at nd
      exact nd.2
  | swap x y l =>
    intro nd k
    by_cases hky : y.1 = k <;> by_cases hkx : x.1 = k
    · exfalso
      simp [List.nodup_cons] at nd
      exact nd.1.1 (by rw [hky, hkx])
    · simp [dictGet, hky, hkx]
    · simp [dictGet, hky, hkx]
    · simp [dictGet, hky, hkx]
  | trans h1 h2 ih1 ih2 =>
    intro nd k
    exact (ih1 nd k).trans (ih2 ((h1.map Prod.fst).nodup_iff.mp nd) k)

theorem pydict_hash_perm {xs ys : List (String × PyVal)} (h : xs.Perm ys)
    (nd : (xs.map Prod.fst).Nodup) :
    _get_hashable (.pydict xs) = _get_hashable (.pydict ys) := by
  rw [_get_hashable_pydict, _get_hashable_pydict]
  have hmap : (xs.map (fun kv => (kv.1, _get_hashable kv.2))).Perm
      (ys.map (fun kv => (kv.1, _get_hashable kv.2))) := h.map _
  have hk1 : (xs.map (fun kv => (kv.1, _get_hashable kv.2))).map Prod.fst
      = xs.map Prod.fst := by
    rw [List.map_map]
    rfl
  have hk2 : (ys.map (fun kv => (kv.1, _get_hashable kv.2))).map Prod.fst
      = ys.map Prod.fst := by
    rw [List.map_map]
    rfl
  have hnd2 : ((xs.map (fun kv => (kv.1, _get_hashable kv.2))).map Prod.fst).Nodup := by
    rw [hk1]
    exact nd
  have hget := dictGet_perm hmap hnd2
  have hfun : (fun k => HVal.htup [.hstr k,
        dictGet k (xs.map (fun kv => (kv.1, _get_hashable kv.2)))])
      = (fun k => HVal.htup [.hstr k,
        dictGet k (ys.map (fun kv => (kv.1, _get_hashable kv.2)))]) :=
    funext fun k => by rw [hget k]
  rw [hk1, hk2, sortStr_perm_of_perm (h.map Prod.fst), hfun]

theorem pyset_hash_perm {xs ys : List String} (h : xs.Perm ys) :
    _get_hashable (.pyset xs) = _get_hashable (.pyset ys) := by
  rw [_get_hashable_pyset, _get_hashable_pyset, sortStr_perm_of_perm h]

theorem get_hashable_getICOSTitle (dobj : PyVal) :
    (Request.getICOSTitle dobj).get_hashable
      = .htup [.hstr "get_ICOS_dataset_title", _get_hashable dobj] := by
  rw [Request.get_hashable]

theorem get_hashable_readData (ri url : PyVal) (md : List (String × PyVal)) (sel : PyVal) :
    (Request.readData ri url md sel).get_hashable
      = .htup [.hstr "read_dataset", _get_hashable ri, _get_hashable url,
               _get_hashable (.pydict md), _get_hashable sel] := by
  rw [Request.get_hashable]

theorem get_hashable_integrate (cs : List Request) :
    (Request.integrate cs).get_hashable
      = .htup (.hstr "integrate_datasets" :: sortH (cs.map Request.get_hashable)) := by
  rw [Request.get_hashable]
  simp

theorem get_hashable_mergeData (c : Request) :
    (Request.mergeData c).get_hashable
      = .htup [.hstr "merge_datasets", c.get_hashable] := by
  rw [Request.get_hashable]

theorem reqEq_readData_dict_perm (ri url sel : PyVal) {md1 md2 : List (String × PyVal)}
    (h : md1.Perm md2) (nd : (md1.map Prod.fst).Nodup) :
    reqEq (.readData ri url md1 sel) (.readData ri url md2 sel) = true := by
  rw [reqEq_iff, get_hashable_readData, get_hashable_readData, pydict_hash_perm h nd]

theorem reqEq_readData_set_perm (ri url : PyVal) (md : List (String × PyVal))
    {s1 s2 : List String} (h : s1.Perm s2) :
    reqEq (.readData ri url md (.pyset s1)) (.readData ri url md (.pyset s2)) = true := by
  rw [reqEq_iff, get_hashable_readData, get_hashable_readData, pyset_hash_perm h]

/-- C4: for all request descriptors `d1, d2`, if `d1 == d2` — which by
`Request.__eq__` means equal `get_hashable` normal forms, and which holds in
particular when unordered sub-collections (dicts, sets) were constructed in
different orders, see `reqEq_readData_dict_perm` / `reqEq_readData_set_perm`
— then the derived cache keys agree: `deterministic_hash` yields the same
digest. -/
theorem deterministic_hash_deterministic (sha : String → String) (r1 r2 : Request)
    (h : reqEq r1 r2 = true) :
    deterministic_hash sha r1 = deterministic_hash sha r2 := by
  unfold deterministic_hash
  rw [reqEq_iff.mp h]

/-- Witness for C4 at a concrete pair: two `ReadDataRequest`s whose metadata
dicts list the same entries in opposite orders are `==` and get the same
digest. -/
theorem deterministic_hash_deterministic_witness :
    reqEq (.readData (.pystr "actris") (.pystr "u") [("a", .pyint 1), ("b", .pyint 2)] .pynone)
          (.readData (.pystr "actris") (.pystr "u") [("b", .pyint 2), ("a", .pyint 1)] .pynone)
        = true ∧
    deterministic_hash (fun s => s)
        (.readData (.pystr "actris") (.pystr "u") [("a", .pyint 1), ("b", .pyint 2)] .pynone)
      = deterministic_hash (fun s => s)
        (.readData (.pystr "actris") (.pystr "u") [("b", .pyint 2), ("a", .pyint 1)] .pynone) := by
  have hperm : ([("a", PyVal.pyint 1), ("b", PyVal.pyint 2)]).Perm
      [("b", PyVal.pyint 2), ("a", PyVal.pyint 1)] :=
    List.Perm.swap _ _ _
  have hnd : (([("a", PyVal.pyint 1), ("b", PyVal.pyint 2)]).map Prod.fst).Nodup := by
    simp
  have he := reqEq_readData_dict_perm (.pystr "actris") (.pystr "u") .pynone hperm hnd
  exact ⟨he, deterministic_hash_deterministic (fun s => s) _ _ he⟩

/-- C5: an `IntegrateDatasetsRequest` built from children `[A, B]` and one
built from `[B, A]` (any two `ReadDataRequest`s) have equal descriptors —
`get_hashable` sorts the hashables of the children — and therefore identical
cache keys, both as hex digests and as the numeric keys the store uses. -/
theorem integrate_commutative (sha : String → String) (hnum : String → Nat)
    (ri1 url1 sel1 ri2 url2 sel2 : PyVal)
    (md1 md2 : List (String × PyVal)) :
    reqEq (.integrate [.readData ri1 url1 md1 sel1, .readData ri2 url2 md2 sel2])
          (.integrate [.readData ri2 url2 md2 sel2, .readData ri1 url1 md1 sel1]) = true ∧
    deterministic_hash sha
        (.integrate [.readData ri1 url1 md1 sel1, .readData ri2 url2 md2 sel2])
      = deterministic_hash sha
        (.integrate [.readData ri2 url2 md2 sel2, .readData ri1 url1 md1 sel1]) ∧
    numeric_hash hnum
        (.integrate [.readData ri1 url1 md1 sel1, .readData ri2 url2 md2 sel2])
      = numeric_hash hnum
        (.integrate [.readData ri2 url2 md2 sel2, .readData ri1 url1 md1 sel1]) := by
  have he : reqEq
      (.integrate [.readData ri1 url1 md1 sel1, .readData ri2 url2 md2 sel2])
      (.integrate [.readData ri2 url2 md2 sel2, .readData ri1 url1 md1 sel1]) = true := by
    rw [reqEq_iff, get_hashable_integrate, get_hashable_integrate]
    simp only [List.map_cons, List.map_nil]
    rw [sortH_pair]
  refine ⟨he, ?_, ?_⟩
  · unfold deterministic_hash
    rw [reqEq_iff.mp he]
  · unfold numeric_hash
    rw [reqEq_iff.mp he]

/-- C10: canonicalization maps each null-like value (`None`, `NaN`, `NaT`) to
the normal form `None`, so two `ReadDataRequest`s whose selector differs only
by one null-like versus another have equal descriptors, compare equal under
`==`, and collapse onto the same cache key (digest and numeric). -/
theorem nulllike_collapse (sha : String → String) (hnum : String → Nat)
    (ri url : PyVal) (md : List (String × PyVal)) (sel1 sel2 : PyVal)
    (h1 : NullLike sel1) (h2 : NullLike sel2) :
    _get_hashable sel1 = .hnone ∧
    (Request.readData ri url md sel1).get_hashable
      = (Request.readData ri url md sel2).get_hashable ∧
    reqEq (.readData ri url md sel1) (.readData ri url md sel2) = true ∧
    deterministic_hash sha (.readData ri url md sel1)
      = deterministic_hash sha (.readData ri url md sel2) ∧
    numeric_hash hnum (.readData ri url md sel1)
      = numeric_hash hnum (.readData ri url md sel2) := by
  have n1 : _get_hashable sel1 = .hnone := by
    rcases h1 with rfl | rfl | rfl <;> rw [_get_hashable]
  have n2 : _get_hashable sel2 = .hnone := by
    rcases h2 with rfl | rfl | rfl <;> rw [_get_hashable]
  have hgh : (Request.readData ri url md sel1).get_hashable
      = (Request.readData ri url md sel2).get_hashable := by
    rw [get_hashable_readData, get_hashable_readData, n1, n2]
  refine ⟨n1, hgh, reqEq_iff.mpr hgh, ?_, ?_⟩
  · unfold deterministic_hash
    rw [hgh]
  · unfold numeric_hash
    rw [hgh]

/-- Witness for C10: `NaN` versus `None` as the selector of otherwise equal
`ReadDataRequest`s. -/
theorem nulllike_collapse_witness :
    NullLike PyVal.nan ∧ NullLike PyVal.pynone ∧
    (_get_hashable PyVal.nan = .hnone ∧
     (Request.readData (.pystr "icos") (.pystr "u") [] PyVal.nan).get_hashable
       = (Request.readData (.pystr "icos") (.pystr "u") [] PyVal.pynone).get_hashable ∧
     reqEq (.readData (.pystr "icos") (.pystr "u") [] PyVal.nan)
           (.readData (.pystr "icos") (.pystr "u") [] PyVal.pynone) = true ∧
     deterministic_hash (fun s => s) (.readData (.pystr "icos") (.pystr "u") [] PyVal.nan)
       = deterministic_hash (fun s => s)
           (.readData (.pystr "icos") (.pystr "u") [] PyVal.pynone) ∧
     numeric_hash (fun _ => 0) (.readData (.pystr "icos") (.pystr "u") [] PyVal.nan)
       = numeric_hash (fun _ => 0)
           (.readData (.pystr "icos") (.pystr "u") [] PyVal.pynone)) :=
  ⟨Or.inr (Or.inl rfl), Or.inl rfl,
   nulllike_collapse (fun s => s) (fun _ => 0) (.pystr "icos") (.pystr "u") [] .nan .pynone
     (Or.inr (Or.inl rfl)) (Or.inl rfl)⟩

theorem store_get_set_self {E V : Type} (i : Nat) (e : StoreEntry E V) (s : Store E V) :
    store_get i (store_set i e s) = some e := by
  simp [store_get, store_set]

theorem store_get_set_other {E V : Type} (i j : Nat) (h : j ≠ i) (e : StoreEntry E V)
    (s : Store E V) : store_get j (store_set i e s) = store_get j s := by
  rw [store_set, store_get, if_neg (fun hij => h hij.symm)]

theorem cache_setdefault_miss {E V : Type} (req : Request) (i : Nat) (s : Store E V)
    (h : store_get i s = Option.none) :
    cache_setdefault req i s
      = ⟨store_set i ⟨req, .inProgress, some _IN_PROGRESS_EXPIRE⟩ s, i, Option.none, 0⟩ := by
  rw [cache_setdefault.eq_def]
  split
  · rfl
  · rename_i e heq
    rw [h] at heq
    cases heq

theorem cache_setdefault_hit {E V : Type} (req : Request) (i : Nat) (s : Store E V)
    (e : StoreEntry E V) (h : store_get i s = some e) (he : reqEq e.req req = true) :
    cache_setdefault req i s = ⟨s, i, some e.res, 0⟩ := by
  rw [cache_setdefault.eq_def]
  split
  · rename_i heq
    rw [h] at heq
    cases heq
  · rename_i e2 heq
    rw [h] at heq
    injection heq with heq2
    subst heq2
    rw [if_pos he]

theorem cache_setdefault_collision {E V : Type} (req : Request) (i : Nat) (s : Store E V)
    (e : StoreEntry E V) (h : store_get i s = some e) (he : reqEq e.req req = false) :
    cache_setdefault req i s
      = ⟨(cache_setdefault req (i + 1) s).store, (cache_setdefault req (i + 1) s).key,
         (cache_setdefault req (i + 1) s).res, (cache_setdefault req (i + 1) s).warns + 1⟩ := by
  rw [cache_setdefault.eq_def]
  split
  · rename_i heq
    rw [h] at heq
    cases heq
  · rename_i e2 heq
    rw [h] at heq
    injection heq with heq2
    subst heq2
    rw [if_neg (by rw [he]; exact fun hf => Bool.noConfusion hf)]

/-- C6: `cache_setdefault` follows the three-step per-key algorithm.  Starting
at candidate key `i`, it settles at the first key `j ≥ i` that is either free
or holds the requested descriptor; every key skipped on the way held a
colliding entry (a different request) and was logged — `warns = j - i` — and
the key was bumped by one each time.  At `j`: if the slot was free, a
`Pending` (`_ResultInProgress`) entry with the short safety TTL was inserted
and `_NoResultYet` is returned; if the stored request equals the requested
one, its state is returned with the store unchanged. -/
theorem cache_setdefault_three_step {E V : Type} (req : Request) (i : Nat) (s : Store E V) :
    ∃ j, i ≤ j ∧ (cache_setdefault req i s).key = j ∧
      (cache_setdefault req i s).warns = j - i ∧
      (∀ k, i ≤ k → k < j → ∃ e, store_get k s = some e ∧ reqEq e.req req = false) ∧
      ((store_get j s = Option.none ∧ (cache_setdefault req i s).res = Option.none ∧
          (cache_setdefault req i s).store
            = store_set j ⟨req, .inProgress, some _IN_PROGRESS_EXPIRE⟩ s) ∨
       (∃ e, store_get j s = some e ∧ reqEq e.req req = true ∧
          (cache_setdefault req i s).res = some e.res ∧
          (cache_setdefault req i s).store = s)) := by
  induction i, s using cache_setdefault.induct req with
  | case1 i s heq =>
    refine ⟨i, le_refl i, ?_, ?_, ?_, ?_⟩
    · rw [cache_setdefault_miss req i s heq]
    · rw [cache_setdefault_miss req i s heq]
      simp
    · intro k h1 h2
      omega
    · left
      rw [cache_setdefault_miss req i s heq]
      exact ⟨heq, rfl, rfl⟩
  | case2 i s e heq he =>
    refine ⟨i, le_refl i, ?_, ?_, ?_, ?_⟩
    · rw [cache_setdefault_hit req i s e heq he]
    · rw [cache_setdefault_hit req i s e heq he]
      simp
    · intro k h1 h2
      omega
    · right
      rw [cache_setdefault_hit req i s e heq he]
      exact ⟨e, heq, he, rfl, rfl⟩
  | case3 i s e heq he ih =>
    have hne : reqEq e.req req = false := by
      cases hb : reqEq e.req req
      · rfl
      · exact absurd hb he
    obtain ⟨j, hij, hkey, hwarns, hintv, hcase⟩ := ih
    have hunf := cache_setdefault_collision req i s e heq hne
    refine ⟨j, by omega, ?_, ?_, ?_, ?_⟩
    · rw [hunf]
      exact hkey
    · rw [hunf]
      simp only []
      rw [hwarns]
      omega
    · intro k h1 h2
      by_cases hk : k = i
      · subst hk
        exact ⟨e, heq, hne⟩
      · exact hintv k (by omega) h2
    · rcases hcase with ⟨h1, h2, h3⟩ | ⟨e2, h1, h2, h3, h4⟩
      · left
        rw [hunf]
        exact ⟨h1, h2, h3⟩
      · right
        rw [hunf]
        exact ⟨e2, h1, h2, h3, h4⟩

/-- One pass of the `request_cache` loop with remaining fuel. -/
theorem request_cache_run_succ {E V : Type} (ce : Option (Option Nat)) (req : Request)
    (body : Except E V) (dh fuel : Nat) (s : Store E V) :
    request_cache_run ce req body dh (fuel + 1) s
      = (match (cache_setdefault req dh s).res with
         | Option.none =>
             match body with
             | .ok v =>
                 ⟨store_set (cache_setdefault req dh s).key
                    ⟨req, .ok v, match ce with
                                 | Option.none => some _RESULT_EXPIRE
                                 | some e2 => e2⟩ (cache_setdefault req dh s).store,
                  some (.ok v), 1⟩
             | .error e =>
                 ⟨store_set (cache_setdefault req dh s).key ⟨req, .fail e, some _FAIL_EXPIRE⟩
                    (cache_setdefault req dh s).store, some (.error e), 1⟩
         | some .inProgress =>
             ⟨(request_cache_run ce req body dh fuel (cache_setdefault req dh s).store).store,
              (request_cache_run ce req body dh fuel (cache_setdefault req dh s).store).out,
              (request_cache_run ce req body dh fuel (cache_setdefault req dh s).store).execs⟩
         | some (.fail e) => ⟨(cache_setdefault req dh s).store, some (.error e), 0⟩
         | some (.ok v) => ⟨(cache_setdefault req dh s).store, some (.ok v), 0⟩) := by
  rfl

/-- C7: when the `request_cache` loop finds a live `_FailResult` entry for its
key (the stored request being equal), it re-raises the stored error at once:
no execution happens, the store is untouched, whatever the polling budget. -/
theorem request_cache_fast_fail {E V : Type} (hnum : String → Nat)
    (ce : Option (Option Nat)) (req : Request) (body : Except E V) (fuel : Nat)
    (s : Store E V) (e : E) (ent : StoreEntry E V)
    (hent : store_get (numeric_hash hnum req) s = some ent)
    (hreq : reqEq ent.req req = true) (hres : ent.res = .fail e) :
    request_cache hnum ce req body (fuel + 1) s = ⟨s, some (.error e), 0⟩ := by
  unfold request_cache
  rw [request_cache_run_succ, cache_setdefault_hit req _ s ent hent hreq, hres]

/-- Witness for C7: a concrete store holding a `_FailResult` entry for the
key of the request; the call raises the stored error without executing. -/
theorem request_cache_fast_fail_witness :
    @request_cache Nat Nat (fun _ => 7) Option.none (.getICOSTitle .pynone)
        (.ok 99) 1 [(7, ⟨.getICOSTitle .pynone, .fail 5, some _FAIL_EXPIRE⟩)]
      = ⟨[(7, ⟨.getICOSTitle .pynone, .fail 5, some _FAIL_EXPIRE⟩)], some (.error 5), 0⟩ :=
  request_cache_fast_fail (fun _ => 7) Option.none (.getICOSTitle .pynone) (.ok 99) 0
    [(7, ⟨.getICOSTitle .pynone, .fail 5, some _FAIL_EXPIRE⟩)] 5
    ⟨.getICOSTitle .pynone, .fail 5, some _FAIL_EXPIRE⟩ rfl
    (reqEq_refl (.getICOSTitle .pynone)) rfl

/-- C8: a caller that claims a key (no entry existed, so `cache_setdefault`
inserted `Pending` and returned `_NoResultYet`) executes exactly once and then
publishes a terminal entry exactly once, in the `finally` block of the source: on
normal return the entry becomes the result with the long `_RESULT_EXPIRE`
TTL, on an exception it becomes `_FailResult` with `_FAIL_EXPIRE`, and the
exception is re-raised; the key is never left `Pending`. -/
theorem request_cache_claim_publishes {E V : Type} (hnum : String → Nat) (req : Request)
    (body : Except E V) (fuel : Nat) (s : Store E V)
    (hempty : store_get (numeric_hash hnum req) s = Option.none) :
    (request_cache hnum Option.none req body (fuel + 1) s).execs = 1 ∧
    (match body with
     | .ok v =>
        (request_cache hnum Option.none req body (fuel + 1) s).out = some (.ok v) ∧
        store_get (numeric_hash hnum req)
            (request_cache hnum Option.none req body (fuel + 1) s).store
          = some ⟨req, .ok v, some _RESULT_EXPIRE⟩
     | .error e =>
        (request_cache hnum Option.none req body (fuel + 1) s).out = some (.error e) ∧
        store_get (numeric_hash hnum req)
            (request_cache hnum Option.none req body (fuel + 1) s).store
          = some ⟨req, .fail e, some _FAIL_EXPIRE⟩) := by
  unfold request_cache
  rw [request_cache_run_succ, cache_setdefault_miss req _ s hempty]
  cases body with
  | ok v => exact ⟨rfl, rfl, store_get_set_self _ _ _⟩
  | error e => exact ⟨rfl, rfl, store_get_set_self _ _ _⟩

/-- Witness for C8 on an empty store with a successful body. -/
theorem request_cache_claim_publishes_witness :
    (@request_cache Nat Nat (fun _ => 7) Option.none (.getICOSTitle .pynone)
        (.ok 5) 1 []).execs = 1 ∧
    (@request_cache Nat Nat (fun _ => 7) Option.none (.getICOSTitle .pynone)
        (.ok 5) 1 []).out = some (.ok 5) ∧
    store_get 7 (@request_cache Nat Nat (fun _ => 7) Option.none
        (.getICOSTitle .pynone) (.ok 5) 1 []).store
      = some ⟨.getICOSTitle .pynone, .ok 5, some _RESULT_EXPIRE⟩ := by
  have h := @request_cache_claim_publishes Nat Nat (fun _ => 7)
    (.getICOSTitle .pynone) (.ok 5) 0 [] rfl
  exact ⟨h.1, h.2.1, h.2.2⟩

/-- C9: the `request_store` wrapper returns the outcome of the wrapped compute
unchanged whether or not the audit append succeeds, and a failing append
(caught and logged) leaves the audit deque untouched. -/
theorem request_store_swallows_audit_failure {E V : Type} (sr hc aok : Bool)
    (req : Request) (inner : RCOut E V) (deque : List Request) :
    (request_store sr hc aok req inner deque).1 = inner ∧
    (request_store sr hc false req inner deque).2 = deque := by
  rcases inner with ⟨st, out, ex⟩
  constructor
  · rcases out with _ | o
    · rfl
    · rcases o with e | v
      · rfl
      · cases sr <;> cases aok <;> cases hc <;> rfl
  · rcases out with _ | o
    · rfl
    · rcases o with e | v
      · rfl
      · cases sr <;> rfl

/-- C2 (amended): the audit side effect of `ReadDataRequest.compute` — the
request is appended to the deque exactly when the wrapped (cached) compute
returned a result (whether freshly executed or served from cache), the call
runs inside a flask request context, and the append itself succeeds; the
outcome of the compute is returned unchanged in every case. -/
theorem ReadData_audit_on_success {E V : Type} (hnum : String → Nat) (hc aok : Bool)
    (req : Request) (body : Except E V) (fuel : Nat) (s : Store E V)
    (deque : List Request) :
    (ReadDataRequest_compute hnum hc aok req body fuel s deque).1
      = request_cache hnum Option.none req body fuel s ∧
    (ReadDataRequest_compute hnum hc aok req body fuel s deque).2
      = (match (request_cache hnum Option.none req body fuel s).out with
         | some (.ok _) => if aok then (if hc then deque ++ [req] else deque) else deque
         | _ => deque) := by
  unfold ReadDataRequest_compute request_store append_request_to_deque
  rcases hout : (request_cache hnum Option.none req body fuel s).out with _ | o
  · exact ⟨rfl, rfl⟩
  · rcases o with e | v
    · exact ⟨rfl, rfl⟩
    · cases aok <;> cases hc <;> exact ⟨rfl, rfl⟩

/-- Counterexample to C2 as stated: a `ReadDataRequest.compute` served
entirely from a cached `Done` entry — the wrapped body never executes
(`execs = 0`), and the cached value `5`, not the would-be fresh value `99`,
is returned — still appends an audit record to the deque. -/
theorem ReadData_audit_appended_on_cache_hit :
    (@ReadDataRequest_compute Nat Nat (fun _ => 7) true true
        (.getICOSTitle .pynone) (.ok 99) 1
        [(7, ⟨.getICOSTitle .pynone, .ok 5, some _RESULT_EXPIRE⟩)] []).1.execs = 0 ∧
    (@ReadDataRequest_compute Nat Nat (fun _ => 7) true true
        (.getICOSTitle .pynone) (.ok 99) 1
        [(7, ⟨.getICOSTitle .pynone, .ok 5, some _RESULT_EXPIRE⟩)] []).1.out
      = some (.ok 5) ∧
    (@ReadDataRequest_compute Nat Nat (fun _ => 7) true true
        (.getICOSTitle .pynone) (.ok 99) 1
        [(7, ⟨.getICOSTitle .pynone, .ok 5, some _RESULT_EXPIRE⟩)] []).2
      = [.getICOSTitle .pynone] := by
  have hrc : @request_cache Nat Nat (fun _ => 7) Option.none
      (.getICOSTitle .pynone) (.ok 99) 1
      [(7, ⟨.getICOSTitle .pynone, .ok 5, some _RESULT_EXPIRE⟩)]
      = ⟨[(7, ⟨.getICOSTitle .pynone, .ok 5, some _RESULT_EXPIRE⟩)], some (.ok 5), 0⟩ := by
    unfold request_cache
    rw [request_cache_run_succ,
      cache_setdefault_hit (.getICOSTitle .pynone)
        (numeric_hash (fun _ => 7) (.getICOSTitle .pynone))
        [(7, ⟨.getICOSTitle .pynone, .ok 5, some _RESULT_EXPIRE⟩)]
        ⟨.getICOSTitle .pynone, .ok 5, some _RESULT_EXPIRE⟩ rfl
        (reqEq_refl (.getICOSTitle .pynone))]
  unfold ReadDataRequest_compute request_store append_request_to_deque
  rw [hrc]
  exact ⟨rfl, rfl, rfl⟩

theorem to_dict_integrate (cs : List Request) :
    (Request.integrate cs).to_dict
      = .pydict [("_action", .pystr "integrate_datasets"),
                 ("read_dataset_requests", .pylist (cs.map Request.to_dict))] := by
  rw [Request.to_dict.eq_def]
  simp

theorem to_dict_filterData (c : Request) (rng : List (String × PyVal)) (cross : Bool)
    (tol : Option Int) :
    (Request.filterData c rng cross tol).to_dict
      = .pydict [("_action", .pystr "filter_data"),
                 ("integrate_datasets_request", c.to_dict),
                 ("rng_by_varlabel", .pydict rng),
                 ("cross_filtering", .pybool cross),
                 ("cross_filtering_time_coincidence_as_str",
                  match tol with
                  | some d => .pystr (tdStr d)
                  | Option.none => .pynone)] := by
  rw [Request.to_dict.eq_def]

theorem to_dict_mergeData (c : Request) :
    (Request.mergeData c).to_dict
      = .pydict [("_action", .pystr "merge_datasets"),
                 ("filter_dataset_request", c.to_dict)] := by
  rw [Request.to_dict.eq_def]

theorem to_dict_readData (ri url : PyVal) (md : List (String × PyVal)) (sel : PyVal) :
    (Request.readData ri url md sel).to_dict
      = .pydict [("_action", .pystr "read_dataset"), ("ri", ri), ("url", url),
                 ("ds_metadata", .pydict md), ("selector", sel)] := by
  rw [Request.to_dict.eq_def]

/-- C3 evidence: the registry reconstructs a `ReadDataRequest` from its own
`to_dict` (the round-trip contract holds there), but it fails with a
`TypeError` on every `FilterDataRequest` — and on every `MergeDatasetsRequest`,
whose reconstruction recurses into its FilterData child — because the
`filter_data` branch of `request_from_dict` calls `FilterDataRequest.from_json`
on the already-parsed dict, and `json.loads` rejects a dict argument. -/
theorem request_from_dict_filter_data_raises :
    request_from_dict
        (Request.readData (.pystr "actris") (.pystr "u") [("k", .pyint 1)] .pynone).to_dict
      = .ok (.readData (.pystr "actris") (.pystr "u") [("k", .pyint 1)] .pynone) ∧
    request_from_dict (Request.filterData (.integrate []) [] false Option.none).to_dict
      = .error .typeError ∧
    request_from_dict
        (Request.mergeData (.filterData (.integrate []) [] false Option.none)).to_dict
      = .error .typeError := by
  have hfilter : request_from_dict
      (.pydict [("_action", .pystr "filter_data"),
                ("integrate_datasets_request", (Request.integrate []).to_dict),
                ("rng_by_varlabel", .pydict []),
                ("cross_filtering", .pybool false),
                ("cross_filtering_time_coincidence_as_str", .pynone)])
      = .error .typeError := by
    rw [request_from_dict.eq_def]
    rfl
  refine ⟨?_, ?_, ?_⟩
  · rw [to_dict_readData, request_from_dict.eq_def]
    rfl
  · rw [to_dict_filterData]
    exact hfilter
  · rw [to_dict_mergeData, to_dict_filterData, request_from_dict.eq_def]
    show (request_from_dict
        (.pydict [("_action", .pystr "filter_data"),
                  ("integrate_datasets_request", (Request.integrate []).to_dict),
                  ("rng_by_varlabel", .pydict []),
                  ("cross_filtering", .pybool false),
                  ("cross_filtering_time_coincidence_as_str", .pynone)])).map Request.mergeData
      = Except.error PyErr.typeError
    rw [hfilter]
    rfl

theorem SFInv_step {E V : Type} {n : Nat} (hnum : String → Nat) (req : Request) (v : V)
    {σ σ2 : Sys E V n} (hstep : Step hnum req v σ σ2) (hinv : SFInv hnum req v σ) :
    SFInv hnum req v σ2 := by
  cases hstep with
  | claim c hc hres =>
    rcases hinv with ⟨he, hst, hcs⟩ | ⟨he, hst, c0, hc0, hrest⟩ |
      ⟨he, hst, c0, hc0, hrest⟩ | ⟨he, hst, hcs⟩
    · have hmiss := cache_setdefault_miss req (numeric_hash hnum req) σ.store
        (hst (numeric_hash hnum req))
      right
      left
      refine ⟨he, ?_, c, ?_, ?_⟩
      · intro j
        simp only [hmiss]
        by_cases hj : j = numeric_hash hnum req
        · subst hj
          rw [if_pos rfl]
          exact store_get_set_self _ _ _
        · rw [if_neg hj, store_get_set_other _ _ hj]
          exact hst j
      · dsimp only
        rw [Function.update_same]
        simp only [hmiss]
      · intro c2 hneq
        dsimp only
        rw [Function.update_noteq hneq]
        exact hcs c2
    · have hhit := cache_setdefault_hit req (numeric_hash hnum req) σ.store
        ⟨req, .inProgress, some _IN_PROGRESS_EXPIRE⟩
        (by rw [hst]; rw [if_pos rfl]) (reqEq_refl req)
      rw [hhit] at hres
      simp at hres
    · have hhit := cache_setdefault_hit req (numeric_hash hnum req) σ.store
        ⟨req, .inProgress, some _IN_PROGRESS_EXPIRE⟩
        (by rw [hst]; rw [if_pos rfl]) (reqEq_refl req)
      rw [hhit] at hres
      simp at hres
    · have hhit := cache_setdefault_hit req (numeric_hash hnum req) σ.store
        ⟨req, .ok v, some _RESULT_EXPIRE⟩
        (by rw [hst]; rw [if_pos rfl]) (reqEq_refl req)
      rw [hhit] at hres
      simp at hres
  | wait c hc hres =>
    rcases hinv with ⟨he, hst, hcs⟩ | ⟨he, hst, c0, hc0, hrest⟩ |
      ⟨he, hst, c0, hc0, hrest⟩ | ⟨he, hst, hcs⟩
    · have hmiss := cache_setdefault_miss req (numeric_hash hnum req) σ.store
        (hst (numeric_hash hnum req))
      rw [hmiss] at hres
      simp at hres
    · have hhit := cache_setdefault_hit req (numeric_hash hnum req) σ.store
        ⟨req, .inProgress, some _IN_PROGRESS_EXPIRE⟩
        (by rw [hst]; rw [if_pos rfl]) (reqEq_refl req)
      right
      left
      refine ⟨he, ?_, c0, hc0, hrest⟩
      intro j
      simp only [hhit]
      exact hst j
    · have hhit := cache_setdefault_hit req (numeric_hash hnum req) σ.store
        ⟨req, .inProgress, some _IN_PROGRESS_EXPIRE⟩
        (by rw [hst]; rw [if_pos rfl]) (reqEq_refl req)
      right
      right
      left
      refine ⟨he, ?_, c0, hc0, hrest⟩
      intro j
      simp only [hhit]
      exact hst j
    · have hhit := cache_setdefault_hit req (numeric_hash hnum req) σ.store
        ⟨req, .ok v, some _RESULT_EXPIRE⟩
        (by rw [hst]; rw [if_pos rfl]) (reqEq_refl req)
      rw [hhit] at hres
      simp at hres
  | readFinished c r hc hres =>
    rcases hinv with ⟨he, hst, hcs⟩ | ⟨he, hst, c0, hc0, hrest⟩ |
      ⟨he, hst, c0, hc0, hrest⟩ | ⟨he, hst, hcs⟩
    · have hmiss := cache_setdefault_miss req (numeric_hash hnum req) σ.store
        (hst (numeric_hash hnum req))
      rw [hmiss] at hres
      simp at hres
    · have hhit := cache_setdefault_hit req (numeric_hash hnum req) σ.store
        ⟨req, .inProgress, some _IN_PROGRESS_EXPIRE⟩
        (by rw [hst]; rw [if_pos rfl]) (reqEq_refl req)
      rw [hhit] at hres
      simp at hres
    · have hhit := cache_setdefault_hit req (numeric_hash hnum req) σ.store
        ⟨req, .inProgress, some _IN_PROGRESS_EXPIRE⟩
        (by rw [hst]; rw [if_pos rfl]) (reqEq_refl req)
      rw [hhit] at hres
      simp at hres
    · have hhit := cache_setdefault_hit req (numeric_hash hnum req) σ.store
        ⟨req, .ok v, some _RESULT_EXPIRE⟩
        (by rw [hst]; rw [if_pos rfl]) (reqEq_refl req)
      rw [hhit] at hres
      simp at hres
      right
      right
      right
      refine ⟨he, ?_, ?_⟩
      · intro j
        simp only [hhit]
        exact hst j
      · intro c2
        by_cases hcc : c2 = c
        · subst hcc
          right
          dsimp only
          rw [Function.update_same, ← hres]
        · dsimp only
          rw [Function.update_noteq hcc]
          exact hcs c2
  | readFailed c e hc hres =>
    rcases hinv with ⟨he, hst, hcs⟩ | ⟨he, hst, c0, hc0, hrest⟩ |
      ⟨he, hst, c0, hc0, hrest⟩ | ⟨he, hst, hcs⟩
    · have hmiss := cache_setdefault_miss req (numeric_hash hnum req) σ.store
        (hst (numeric_hash hnum req))
      rw [hmiss] at hres
      simp at hres
    · have hhit := cache_setdefault_hit req (numeric_hash hnum req) σ.store
        ⟨req, .inProgress, some _IN_PROGRESS_EXPIRE⟩
        (by rw [hst]; rw [if_pos rfl]) (reqEq_refl req)
      rw [hhit] at hres
      simp at hres
    · have hhit := cache_setdefault_hit req (numeric_hash hnum req) σ.store
        ⟨req, .inProgress, some _IN_PROGRESS_EXPIRE⟩
        (by rw [hst]; rw [if_pos rfl]) (reqEq_refl req)
      rw [hhit] at hres
      simp at hres
    · have hhit := cache_setdefault_hit req (numeric_hash hnum req) σ.store
        ⟨req, .ok v, some _RESULT_EXPIRE⟩
        (by rw [hst]; rw [if_pos rfl]) (reqEq_refl req)
      rw [hhit] at hres
      simp at hres
  | exec c i hc =>
    rcases hinv with ⟨he, hst, hcs⟩ | ⟨he, hst, c0, hc0, hrest⟩ |
      ⟨he, hst, c0, hc0, hrest⟩ | ⟨he, hst, hcs⟩
    · rw [hcs c] at hc
      cases hc
    · by_cases hcc : c = c0
      · subst hcc
        rw [hc0] at hc
        injection hc with hi
        right
        right
        left
        refine ⟨by dsimp only; omega, hst, c, ?_, ?_⟩
        · dsimp only
          rw [Function.update_same, ← hi]
        · intro c2 hneq
          dsimp only
          rw [Function.update_noteq hneq]
          exact hrest c2 hneq
      · have h1 := hrest c hcc
        rw [h1] at hc
        cases hc
    · by_cases hcc : c = c0
      · subst hcc
        rw [hc0] at hc
        cases hc
      · have h1 := hrest c hcc
        rw [h1] at hc
        cases hc
    · rcases hcs c with h1 | h1 <;> (rw [h1] at hc; cases hc)
  | publish c i hc =>
    rcases hinv with ⟨he, hst, hcs⟩ | ⟨he, hst, c0, hc0, hrest⟩ |
      ⟨he, hst, c0, hc0, hrest⟩ | ⟨he, hst, hcs⟩
    · rw [hcs c] at hc
      cases hc
    · by_cases hcc : c = c0
      · subst hcc
        rw [hc0] at hc
        cases hc
      · have h1 := hrest c hcc
        rw [h1] at hc
        cases hc
    · by_cases hcc : c = c0
      · subst hcc
        rw [hc0] at hc
        injection hc with hi
        subst hi
        right
        right
        right
        refine ⟨he, ?_, ?_⟩
        · intro j
          by_cases hj : j = numeric_hash hnum req
          · subst hj
            rw [if_pos rfl]
            exact store_get_set_self _ _ _
          · rw [if_neg hj, store_get_set_other _ _ hj]
            have h2 := hst j
            rw [if_neg hj] at h2
            exact h2
        · intro c2
          by_cases hcc2 : c2 = c
          · subst hcc2
            right
            dsimp only
            rw [Function.update_same]
          · dsimp only
            rw [Function.update_noteq hcc2]
            left
            exact hrest c2 hcc2
      · have h1 := hrest c hcc
        rw [h1] at hc
        cases hc
    · rcases hcs c with h1 | h1 <;> (rw [h1] at hc; cases hc)

theorem SFInv_reachable {E V : Type} {n : Nat} (hnum : String → Nat) (req : Request)
    (v : V) {σ : Sys E V n} (h : Reachable hnum req v σ) : SFInv hnum req v σ := by
  unfold Reachable at h
  induction h with
  | refl =>
    left
    exact ⟨rfl, fun j => rfl, fun c => rfl⟩
  | tail hsteps hstep ih =>
    exact SFInv_step hnum req v hstep ih

/-- C1: in the interleaving model, for any number `n ≥ 1` of concurrent
`compute()` callers on the same request (structurally identical trees share
one descriptor, hence one key), every reachable state in which all callers
have finished has the wrapped body — the external fetch of the leaf — executed
exactly once, and every caller holding the same published value. -/
theorem single_flight {E V : Type} (hnum : String → Nat) (req : Request) (v : V)
    (n : Nat) (σ : Sys E V n) (hn : 0 < n) (hreach : Reachable hnum req v σ)
    (hdone : ∀ c, ∃ r, σ.cs c = .finished r) :
    σ.execs = 1 ∧ ∀ c, σ.cs c = .finished v := by
  have hinv := SFInv_reachable hnum req v hreach
  rcases hinv with ⟨he, hst, hcs⟩ | ⟨he, hst, c0, hc0, hrest⟩ |
    ⟨he, hst, c0, hc0, hrest⟩ | ⟨he, hst, hcs⟩
  · obtain ⟨r, hr⟩ := hdone ⟨0, hn⟩
    rw [hcs ⟨0, hn⟩] at hr
    cases hr
  · obtain ⟨r, hr⟩ := hdone c0
    rw [hc0] at hr
    cases hr
  · obtain ⟨r, hr⟩ := hdone c0
    rw [hc0] at hr
    cases hr
  · refine ⟨he, fun c => ?_⟩
    rcases hcs c with h1 | h1
    · obtain ⟨r, hr⟩ := hdone c
      rw [h1] at hr
      cases hr
    · exact h1

/-- Witness for C1: a complete run — claim, execute, publish — of one caller
on an initially empty store, reaching a state where every caller finished
with the published value `5` and the body executed exactly once. -/
theorem single_flight_witness :
    (⟨[(0, ⟨Request.getICOSTitle PyVal.pynone, CRes.ok 5, some _RESULT_EXPIRE⟩),
       (0, ⟨Request.getICOSTitle PyVal.pynone, CRes.inProgress, some _IN_PROGRESS_EXPIRE⟩)],
      Function.update (Function.update (Function.update
        (fun _ : Fin 1 => (CallerSt.start : CallerSt Nat Nat)) 0 (CallerSt.claimed 0))
        0 (CallerSt.publishing 0)) 0 (CallerSt.finished 5),
      1⟩ : Sys Nat Nat 1).execs = 1 ∧
    (⟨[(0, ⟨Request.getICOSTitle PyVal.pynone, CRes.ok 5, some _RESULT_EXPIRE⟩),
       (0, ⟨Request.getICOSTitle PyVal.pynone, CRes.inProgress, some _IN_PROGRESS_EXPIRE⟩)],
      Function.update (Function.update (Function.update
        (fun _ : Fin 1 => (CallerSt.start : CallerSt Nat Nat)) 0 (CallerSt.claimed 0))
        0 (CallerSt.publishing 0)) 0 (CallerSt.finished 5),
      1⟩ : Sys Nat Nat 1).cs 0 = CallerSt.finished 5 := by
  have hmiss : cache_setdefault (Request.getICOSTitle PyVal.pynone)
      (numeric_hash (fun _ => 0) (Request.getICOSTitle PyVal.pynone)) ([] : Store Nat Nat)
      = ⟨[(0, ⟨Request.getICOSTitle PyVal.pynone, CRes.inProgress,
              some _IN_PROGRESS_EXPIRE⟩)], 0, Option.none, 0⟩ :=
    cache_setdefault_miss _ _ _ rfl
  have hres0 : (cache_setdefault (Request.getICOSTitle PyVal.pynone)
      (numeric_hash (fun _ => 0) (Request.getICOSTitle PyVal.pynone))
      ((InitSys Nat Nat 1).store)).res = Option.none := by
    show (cache_setdefault (Request.getICOSTitle PyVal.pynone)
        (numeric_hash (fun _ => 0) (Request.getICOSTitle PyVal.pynone))
        ([] : Store Nat Nat)).res = Option.none
    rw [hmiss]
  have s1 : Step (fun _ => (0 : Nat)) (Request.getICOSTitle PyVal.pynone) (5 : Nat)
      (InitSys Nat Nat 1)
      (⟨[(0, ⟨Request.getICOSTitle PyVal.pynone, CRes.inProgress, some _IN_PROGRESS_EXPIRE⟩)],
        Function.update (fun _ : Fin 1 => (CallerSt.start : CallerSt Nat Nat)) 0
          (CallerSt.claimed 0), 0⟩ : Sys Nat Nat 1) := by
    have h : Step (fun _ => (0 : Nat)) (Request.getICOSTitle PyVal.pynone) (5 : Nat)
        (InitSys Nat Nat 1)
        ⟨(cache_setdefault (Request.getICOSTitle PyVal.pynone)
            (numeric_hash (fun _ => 0) (Request.getICOSTitle PyVal.pynone))
            (InitSys Nat Nat 1).store).store,
         Function.update (InitSys Nat Nat 1).cs 0
           (CallerSt.claimed (cache_setdefault (Request.getICOSTitle PyVal.pynone)
              (numeric_hash (fun _ => 0) (Request.getICOSTitle PyVal.pynone))
              (InitSys Nat Nat 1).store).key),
         (InitSys Nat Nat 1).execs⟩ :=
      Step.claim (InitSys Nat Nat 1) 0 rfl hres0
    dsimp only [InitSys] at h
    rw [hmiss] at h
    exact h
  have s2 : Step (fun _ => (0 : Nat)) (Request.getICOSTitle PyVal.pynone) (5 : Nat)
      (⟨[(0, ⟨Request.getICOSTitle PyVal.pynone, CRes.inProgress, some _IN_PROGRESS_EXPIRE⟩)],
        Function.update (fun _ : Fin 1 => (CallerSt.start : CallerSt Nat Nat)) 0
          (CallerSt.claimed 0), 0⟩ : Sys Nat Nat 1)
      (⟨[(0, ⟨Request.getICOSTitle PyVal.pynone, CRes.inProgress, some _IN_PROGRESS_EXPIRE⟩)],
        Function.update (Function.update
          (fun _ : Fin 1 => (CallerSt.start : CallerSt Nat Nat)) 0 (CallerSt.claimed 0))
          0 (CallerSt.publishing 0), 1⟩ : Sys Nat Nat 1) :=
    Step.exec (⟨[(0, ⟨Request.getICOSTitle PyVal.pynone, CRes.inProgress,
          some _IN_PROGRESS_EXPIRE⟩)],
        Function.update (fun _ : Fin 1 => (CallerSt.start : CallerSt Nat Nat)) 0
          (CallerSt.claimed 0), 0⟩ : Sys Nat Nat 1) 0 0 rfl
  have s3 : Step (fun _ => (0 : Nat)) (Request.getICOSTitle PyVal.pynone) (5 : Nat)
      (⟨[(0, ⟨Request.getICOSTitle PyVal.pynone, CRes.inProgress, some _IN_PROGRESS_EXPIRE⟩)],
        Function.update (Function.update
          (fun _ : Fin 1 => (CallerSt.start : CallerSt Nat Nat)) 0 (CallerSt.claimed 0))
          0 (CallerSt.publishing 0), 1⟩ : Sys Nat Nat 1)
      (⟨[(0, ⟨Request.getICOSTitle PyVal.pynone, CRes.ok 5, some _RESULT_EXPIRE⟩),
         (0, ⟨Request.getICOSTitle PyVal.pynone, CRes.inProgress, some _IN_PROGRESS_EXPIRE⟩)],
        Function.update (Function.update (Function.update
          (fun _ : Fin 1 => (CallerSt.start : CallerSt Nat Nat)) 0 (CallerSt.claimed 0))
          0 (CallerSt.publishing 0)) 0 (CallerSt.finished 5), 1⟩ : Sys Nat Nat 1) :=
    Step.publish (⟨[(0, ⟨Request.getICOSTitle PyVal.pynone, CRes.inProgress,
          some _IN_PROGRESS_EXPIRE⟩)],
        Function.update (Function.update
          (fun _ : Fin 1 => (CallerSt.start : CallerSt Nat Nat)) 0 (CallerSt.claimed 0))
          0 (CallerSt.publishing 0), 1⟩ : Sys Nat Nat 1) 0 0 rfl
  have hreach : Reachable (fun _ => (0 : Nat)) (Request.getICOSTitle PyVal.pynone) (5 : Nat)
      (⟨[(0, ⟨Request.getICOSTitle PyVal.pynone, CRes.ok 5, some _RESULT_EXPIRE⟩),
         (0, ⟨Request.getICOSTitle PyVal.pynone, CRes.inProgress, some _IN_PROGRESS_EXPIRE⟩)],
        Function.update (Function.update (Function.update
          (fun _ : Fin 1 => (CallerSt.start : CallerSt Nat Nat)) 0 (CallerSt.claimed 0))
          0 (CallerSt.publishing 0)) 0 (CallerSt.finished 5), 1⟩ : Sys Nat Nat 1) :=
    Relation.ReflTransGen.head s1 (Relation.ReflTransGen.head s2
      (Relation.ReflTransGen.head s3 Relation.ReflTransGen.refl))
  have hdone : ∀ c : Fin 1,
      ∃ r, (⟨[(0, ⟨Request.getICOSTitle PyVal.pynone, CRes.ok 5, some _RESULT_EXPIRE⟩),
              (0, ⟨Request.getICOSTitle PyVal.pynone, CRes.inProgress,
                   some _IN_PROGRESS_EXPIRE⟩)],
             Function.update (Function.update (Function.update
               (fun _ : Fin 1 => (CallerSt.start : CallerSt Nat Nat)) 0 (CallerSt.claimed 0))
               0 (CallerSt.publishing 0)) 0 (CallerSt.finished 5),
             1⟩ : Sys Nat Nat 1).cs c = CallerSt.finished r := by
    intro c
    have hc0 : c = 0 := Subsingleton.elim c 0
    subst hc0
    exact ⟨5, rfl⟩
  have hmain := single_flight (fun _ => (0 : Nat)) (Request.getICOSTitle PyVal.pynone)
    (5 : Nat) 1
    (⟨[(0, ⟨Request.getICOSTitle PyVal.pynone, CRes.ok 5, some _RESULT_EXPIRE⟩),
       (0, ⟨Request.getICOSTitle PyVal.pynone, CRes.inProgress, some _IN_PROGRESS_EXPIRE⟩)],
      Function.update (Function.update (Function.update
        (fun _ : Fin 1 => (CallerSt.start : CallerSt Nat Nat)) 0 (CallerSt.claimed 0))
        0 (CallerSt.publishing 0)) 0 (CallerSt.finished 5), 1⟩ : Sys Nat Nat 1)
    Nat.one_pos hreach hdone
  exact ⟨hmain.1, hmain.2 0⟩

end RequestManager
